import Mathlib

/-!
# Verification of `new_hka.py` (HKA_Flights)

Shallow embedding of the HKIA flight-history query tool `src/new_hka.py`.
Python strings are modelled as Lean `String` (a wrapper around `List Char`);
the Python string primitives used by the program (`split`, `split()` on
whitespace, `in`, `startswith`, `strip`, `replace(" ", "")`, `upper`, `int`)
are modelled over `List Char`, restricted to ASCII (the program only ever
handles ASCII flight data).  Fallible Python code (list indexing that can
raise `IndexError`, HTTP requests that can raise `RequestException`) is
modelled with `Except`.
-/

namespace HKA

/-- The whitespace characters recognised by Python's `str.split()` /
`str.strip()` (ASCII fragment). -/
def pyIsSpace (c : Char) : Bool :=
  c == ' ' || c == '\t' || c == '\n' || c == '\r' || c == '\x0b' || c == '\x0c'

/-- Python `str.strip()` on the character list: drop whitespace from both ends. -/
def stripL (l : List Char) : List Char :=
  ((l.dropWhile pyIsSpace).reverse.dropWhile pyIsSpace).reverse

/-- Python `str.strip()`. -/
def pyStrip (s : String) : String := String.mk (stripL s.data)

/-- Auxiliary for Python's whitespace `str.split()`: `cur` is the current word
accumulated in reverse. -/
def pyWordsAux : List Char → List Char → List (List Char)
  | cur, [] => if cur.isEmpty then [] else [cur.reverse]
  | cur, c :: rest =>
    if pyIsSpace c then
      if cur.isEmpty then pyWordsAux [] rest else cur.reverse :: pyWordsAux [] rest
    else pyWordsAux (c :: cur) rest

/-- Python `str.split()` with no separator: split on whitespace runs,
discarding empty segments. -/
def pyWordsL (l : List Char) : List (List Char) := pyWordsAux [] l

/-- Python `str.split()` on a `String`. -/
def pyWords (s : String) : List String := (pyWordsL s.data).map String.mk

/-- Auxiliary for Python's `str.split(sep)` (`sep` nonempty): scan left to
right keeping the current segment `cur` in reverse; cut as soon as the
consumed text ends with `sep`, which yields exactly Python's leftmost,
non-overlapping occurrences. -/
def pySplitAuxL (sep : List Char) : List Char → List Char → List (List Char)
  | cur, [] => [cur.reverse]
  | cur, c :: rest =>
    if sep.reverse.isPrefixOf (c :: cur) then
      ((c :: cur).drop sep.length).reverse :: pySplitAuxL sep [] rest
    else
      pySplitAuxL sep (c :: cur) rest

/-- Python `str.split(sep)` for a nonempty separator, on character lists. -/
def pySplitL (sep l : List Char) : List (List Char) := pySplitAuxL sep [] l

/-- Python `s.split(sep)`. -/
def pySplit (s sep : String) : List String := (pySplitL sep.data s.data).map String.mk

/-- Python's substring test `sep in l` on character lists. -/
def containsL (sep : List Char) : List Char → Bool
  | [] => sep.isEmpty
  | c :: rest => sep.isPrefixOf (c :: rest) || containsL sep rest

/-- Python's substring test `sub in s`. -/
def pyContains (sub s : String) : Bool := containsL sub.data s.data

/-- Python `s.startswith(p)`. -/
def pyStartsWith (p s : String) : Bool := p.data.isPrefixOf s.data

/-- Python `s.replace(" ", "")`: remove every space character (only U+0020,
not other whitespace). -/
def pyReplaceSpace (s : String) : String := String.mk (s.data.filter (fun c => c != ' '))

/-- Python `s.upper()` (ASCII fragment). -/
def pyUpper (s : String) : String := String.mk (s.data.map Char.toUpper)

/-- Numeric value of a digit character. -/
def digitVal (c : Char) : Nat := c.toNat - '0'.toNat

/-- Digits of a Python integer literal after the first digit: further digits,
with single underscores allowed between digits (as accepted by `int`). -/
def parseDigitsAux : Nat → List Char → Option Nat
  | acc, [] => some acc
  | acc, '_' :: rest =>
    match rest with
    | d :: rest' => if d.isDigit then parseDigitsAux (acc * 10 + digitVal d) rest' else none
    | [] => none
  | acc, d :: rest => if d.isDigit then parseDigitsAux (acc * 10 + digitVal d) rest else none

/-- A nonempty digit sequence (single underscores allowed between digits). -/
def parseDigitsU : List Char → Option Nat
  | [] => none
  | d :: rest => if d.isDigit then parseDigitsAux (digitVal d) rest else none

/-- Python `int(s)` (ASCII fragment): strip whitespace, optional sign, then a
digit sequence; `none` models the `ValueError` raised on malformed input. -/
def pyIntL (l : List Char) : Option Int :=
  match stripL l with
  | '+' :: rest => (parseDigitsU rest).map (fun n => (n : Int))
  | '-' :: rest => (parseDigitsU rest).map (fun n => -(n : Int))
  | t => (parseDigitsU t).map (fun n => (n : Int))

/-- Python `int(s)` on a `String`. -/
def pyInt (s : String) : Option Int := pyIntL s.data

/-- The parsing step of `is_on_time` for one input: `s.split(":")` must
unpack into exactly two components, each accepted by `int`; `none` models the
`ValueError` raised (and caught) otherwise. -/
def parseHM (s : String) : Option (Int × Int) :=
  match pySplitL (":".data) s.data with
  | [h, m] =>
    match pyIntL h, pyIntL m with
    | some a, some b => some (a, b)
    | _, _ => none
  | _ => none

/-- `is_on_time` from `new_hka.py` (lines 82-102): `"Unknown"` on `"N/A"` or
unparseable input, else compare minutes-since-midnight with a 15-minute
tolerance. -/
def is_on_time (scheduled_time actual_time : String) : String :=
  if scheduled_time = "N/A" ∨ actual_time = "N/A" then "Unknown"
  else
    match parseHM scheduled_time, parseHM actual_time with
    | some (sh, sm), some (ah, am) =>
      if ah * 60 + am ≤ sh * 60 + sm + 15 then "On Time" else "Delayed"
    | _, _ => "Unknown"

/-! ## Data model

JSON payload shapes of the flight-history endpoint, as the program reads
them.  Absent JSON fields are `none`; `Option.getD` models `dict.get` with a
default. -/

/-- One codeshare alias object in an entry's `flight` array; `no` is the
alias code (`flight_item.get("no", "")`). -/
structure FlightAlias where
  no : Option String
  deriving DecidableEq

/-- One element of the `listAirport` fallback array (`{city}`). -/
structure AirportEntry where
  city : Option String
  deriving DecidableEq

/-- A raw flight entry from the endpoint, with every field the program reads. -/
structure RawFlight where
  flight : Option (List FlightAlias) := none
  status : Option String := none
  time : Option String := none
  scheduleTime : Option String := none
  actualTime : Option String := none
  origin : Option (List String) := none
  destination : Option (List String) := none
  listAirport : Option (List AirportEntry) := none
  baggage : Option String := none
  hall : Option String := none
  stand : Option String := none
  terminal : Option String := none
  aisle : Option String := none
  gate : Option String := none
  deriving DecidableEq

/-- A Python exception escaping the normalization code in `main`. -/
inductive PyErr where
  | indexError
  deriving DecidableEq

/-- A Python value stored in the `flight_info` dict: either `None` or a
string. -/
inductive PyVal where
  | none
  | str (s : String)
  deriving DecidableEq

/-- The `flight_info` dict built in `main`: keys in literal order. -/
abbrev FlightInfo := List (String × PyVal)

/-- Python list indexing `l[i]`, which raises `IndexError` when out of range. -/
def pyIdx : List α → Nat → Except PyErr α
  | [], _ => .error .indexError
  | x :: _, 0 => .ok x
  | _ :: xs, n + 1 => pyIdx xs n

/-- Python `l[-1]`. -/
def pyIdxLast (l : List α) : Except PyErr α :=
  match l.getLast? with
  | some x => .ok x
  | Option.none => .error .indexError

/-- Python truthiness of an optional list value: `None`, an absent field and
an empty list are falsy. -/
def listTruthy : Option (List α) → Bool
  | some (_ :: _) => true
  | _ => false

/-- The `actual_time` expression of `main` (lines 146-150), for status string
`status` (already defaulted to `"N/A"`):
arrival mode with `"At gate" in status` takes `status.split("At gate ")[-1]`;
departure mode with `status.startswith("Dep ")` takes `status.split()[1]`
(which raises `IndexError` when there is no second token); otherwise the
`actualTime` field with default `"N/A"`. -/
def actualTimeE (arrival : Bool) (f : RawFlight) : Except PyErr String :=
  let status := f.status.getD "N/A"
  if arrival && pyContains "At gate" status then
    pyIdxLast (pySplit status "At gate ")
  else if !arrival && pyStartsWith "Dep " status then
    pyIdx (pyWords status) 1
  else
    .ok (f.actualTime.getD "N/A")

/-- The `location` expression of `main` (lines 154-155), over the chosen
direction field: the first element of that field's list when it is truthy,
else the `city` of the first element of `listAirport` (default `[{}]`), which
raises `IndexError` when `listAirport` is present but empty. -/
def locationCore (locField : Option (List String))
    (listAirport : Option (List AirportEntry)) : Except PyErr String :=
  if listTruthy locField then
    pyIdx (locField.getD ["N/A"]) 0
  else do
    let a ← pyIdx (listAirport.getD [{ city := Option.none }]) 0
    .ok (a.city.getD "N/A")

/-- Line 145: `location_field = "origin" if arrival == "true" else
"destination"`, then the `location` expression over it. -/
def locationE (arrival : Bool) (f : RawFlight) : Except PyErr String :=
  locationCore (if arrival then f.origin else f.destination) f.listAirport

/-- The `scheduled_time` expression of `main` (line 144):
`flight.get("time", flight.get("scheduleTime", "N/A"))`. -/
def scheduledTimeOf (f : RawFlight) : String :=
  match f.time with
  | some t => t
  | Option.none => f.scheduleTime.getD "N/A"

/-- The `flight_info` dict literal of `main` (lines 151-168), given the
already-computed `actual_time` and `location`. -/
def flightDict (arrival : Bool) (flight_number date : String) (f : RawFlight)
    (actual_time location : String) : FlightInfo :=
  let status := f.status.getD "N/A"
  let scheduled_time := scheduledTimeOf f
  [("date", .str date),
    ("flight_number", .str flight_number),
    ("location", .str location),
    ("scheduled_time", .str scheduled_time),
    ("actual_time", .str actual_time),
    ("status", .str status),
    ("on_time", .str (is_on_time scheduled_time actual_time)),
    ("baggage", if arrival then .str (f.baggage.getD "N/A") else .none),
    ("hall", if arrival then .str (f.hall.getD "N/A") else .none),
    ("stand", if arrival then .str (f.stand.getD "N/A") else .none),
    ("terminal", .str (f.terminal.getD "N/A")),
    ("aisle", if !arrival then .str (f.aisle.getD "N/A") else .none),
    ("gate", if !arrival then .str (f.gate.getD "N/A") else .none)]

/-- The body of `main`'s inner loop (lines 143-168): builds the
`flight_info` dict for one raw entry, in the program's evaluation order
(`actual_time` first at line 146, then the dict literal whose `location`
entry at lines 154-155 may also raise). -/
def mkFlightInfo (arrival : Bool) (flight_number date : String) (f : RawFlight) :
    Except PyErr FlightInfo := do
  let actual_time ← actualTimeE arrival f
  let location ← locationE arrival f
  .ok (flightDict arrival flight_number date f actual_time location)

/-- `main` line 129: the flight number used for matching and stored in
records is the prompt input `.strip()`ped (line 111) with spaces removed. -/
def normalizeInput (s : String) : String := pyReplaceSpace (pyStrip s)

/-! ## Fetch and matching (`fetch_flight_data`, lines 21-70) -/

/-- A `requests.exceptions.RequestException` raised by the HTTP call (or by
`raise_for_status` / `response.json()`). -/
inductive ReqErr where
  | requestException
  deriving DecidableEq

/-- The decoded JSON response: `none` models a payload that is not a list
(line 53); a list element is `some l` when it is a dict with a `"list"` key
holding flight entries `l`, and `none` when it is skipped with a warning
(line 52). -/
abbrev JsonResp := Option (List (Option (List RawFlight)))

/-- Alias matching (line 61): the alias code with spaces removed and
uppercased equals the requested flight number uppercased. -/
def aliasMatches (flight_number : String) (it : FlightAlias) : Bool :=
  pyUpper (pyReplaceSpace (it.no.getD "")) == pyUpper flight_number

/-- Entry matching (lines 59-62): the `flight` field must be a truthy
nonempty list, and some alias in it must match. -/
def entryMatches (flight_number : String) (f : RawFlight) : Bool :=
  match f.flight with
  | some (a :: rest) => (a :: rest).any (aliasMatches flight_number)
  | _ => false

/-- The filtering loop of lines 58-65: append each matching entry once
(invalid entries are skipped with a warning). -/
def matchLoop (flight_number : String) : List RawFlight → List RawFlight
  | [] => []
  | f :: rest =>
    if entryMatches flight_number f then f :: matchLoop flight_number rest
    else matchLoop flight_number rest

/-- `fetch_flight_data` (lines 21-70), with the HTTP exchange abstracted as
an `Except ReqErr JsonResp` input: a request exception yields `[]`
(lines 68-70); a non-list payload yields `[]` (lines 53-55); otherwise the
entries' `"list"` arrays are concatenated (lines 46-52) and filtered by
flight number. -/
def fetch_flight_data (resp : Except ReqErr JsonResp) (flight_number : String) :
    List RawFlight :=
  match resp with
  | .error _ => []
  | .ok Option.none => []
  | .ok (some entries) =>
    let flight_list := entries.foldl (fun acc e => acc ++ e.getD []) []
    matchLoop flight_number flight_list

/-- One iteration of `main`'s date loop (lines 139-169): fetch, then build a
`flight_info` record for every matching entry (an exception in the
normalization aborts the whole loop, since `main` catches nothing). -/
def processDate (arrival : Bool) (flight_number date : String)
    (resp : Except ReqErr JsonResp) : Except PyErr (List FlightInfo) :=
  (fetch_flight_data resp flight_number).mapM (mkFlightInfo arrival flight_number date)

/-- `main`'s window loop (lines 135-169), date by date: `acc` is the
`all_flights` accumulated so far; a `PyErr` in any date's normalization
aborts the rest (nothing catches it). -/
def collectWindowAux (arrival : Bool) (flight_number : String)
    (resp : String → Except ReqErr JsonResp) :
    List String → List FlightInfo → Except PyErr (List FlightInfo)
  | [], acc => .ok acc
  | d :: ds, acc => do
    let recs ← processDate arrival flight_number d (resp d)
    collectWindowAux arrival flight_number resp ds (acc ++ recs)

/-- `main`'s window loop (lines 135-169): accumulate `all_flights` over the
dates in order, starting from the empty list. -/
def collectWindow (arrival : Bool) (flight_number : String) (dates : List String)
    (resp : String → Except ReqErr JsonResp) : Except PyErr (List FlightInfo) :=
  collectWindowAux arrival flight_number resp dates []

/-! ## Aggregation and display order (lines 180-199) -/

/-- Reading a string field out of a `flight_info` dict. -/
def recStr (r : FlightInfo) (k : String) : String :=
  match (List.lookup k r).getD .none with
  | .str s => s
  | .none => ""

/-- The record's `date` key, the sort key of line 199. -/
def recDate (r : FlightInfo) : String := recStr r "date"

/-- Lines 183-184: `values.pop() if len(values) == 1 else "Varies"` over the
set of distinct values - the unique element when there is exactly one
distinct value, else the sentinel. -/
def summaryValue (vals : List String) : String :=
  match vals.dedup with
  | [v] => v
  | _ => "Varies"

/-- Line 181/183: the summary location over `all_flights`. -/
def locationSummary (flights : List FlightInfo) : String :=
  summaryValue (flights.map (fun r => recStr r "location"))

/-- Line 182/184: the summary scheduled time over `all_flights`. -/
def scheduledSummary (flights : List FlightInfo) : String :=
  summaryValue (flights.map (fun r => recStr r "scheduled_time"))

/-- Stable descending insertion by a string key: the new element goes in
front of the first strictly smaller key, hence after every earlier element
with an equal key. -/
def insertDesc (key : α → String) (x : α) : List α → List α
  | [] => [x]
  | y :: ys => if key y < key x then x :: y :: ys else y :: insertDesc key x ys

/-- Stable descending sort by a string key, processing the input in order;
this is the specified behaviour of Python's
`sorted(l, key=..., reverse=True)` (stable, descending). -/
def sortDescBy (key : α → String) (l : List α) : List α :=
  l.foldl (fun acc x => insertDesc key x acc) []

/-- Line 199: `sorted(all_flights, key=lambda x: x["date"], reverse=True)`. -/
def displayOrder (l : List FlightInfo) : List FlightInfo := sortDescBy recDate l

/-- A departure entry whose status is the bare `"Dep "` (no second token). -/
def depBareEntry : RawFlight :=
  { flight := some [{ no := some "CX 418" }], status := some "Dep " }

/-- An arrival entry with no `origin` and `listAirport` present but empty. -/
def emptyAirportEntry : RawFlight :=
  { flight := some [{ no := some "HX 631" }], status := some "At gate 01:00",
    listAirport := some [] }

/-- A well-formed arrival entry (shaped like the sample output for HX631). -/
def arrGateEntry : RawFlight :=
  { flight := some [{ no := some "HX 631" }], status := some "At gate 01:00",
    time := some "00:45", origin := some ["NRT"], baggage := some "12",
    hall := some "B", stand := some "D219", terminal := some "T1" }

/-- A well-formed departure entry (shaped like the sample output for CX418). -/
def depGateEntry : RawFlight :=
  { flight := some [{ no := some "CX 418" }], status := some "Dep 14:22",
    time := some "14:25", destination := some ["ICN"], terminal := some "T1",
    aisle := some "A", gate := some "68" }

/-- The concrete record produced for `arrGateEntry`. -/
def arrGateRec : FlightInfo :=
  (mkFlightInfo true "HX631" "2025-06-12" arrGateEntry).toOption.getD []

/-- The concrete record produced for `depGateEntry` with input `"cx 418"`. -/
def depGateRec : FlightInfo :=
  (mkFlightInfo false (normalizeInput "cx 418") "2025-06-12" depGateEntry).toOption.getD []

/-- An arrival entry whose status is exactly `"At gate"` (no trailing space)
with an explicit `actualTime` field. -/
def gateNoSpaceEntry : RawFlight :=
  { flight := some [{ no := some "HX 631" }], status := some "At gate",
    actualTime := some "12:34", origin := some ["NRT"] }

/-- The records one date contributes to `all_flights` (empty for a failed
fetch, which yields no entries to normalize). -/
def okRecords (arrival : Bool) (fn : String) (resp : String → Except ReqErr JsonResp)
    (d : String) : List FlightInfo :=
  (processDate arrival fn d (resp d)).toOption.getD []

/-- A concrete two-day window whose most recent day's fetch fails. -/
def respEx : String → Except ReqErr JsonResp := fun d =>
  if d = "2025-06-12" then .error .requestException
  else .ok (some [some [depGateEntry]])

/-- Joining segments back with the separator (inverse of `split`). -/
def joinSep (sep : List Char) : List (List Char) → List Char
  | [] => []
  | [p] => p
  | p :: q :: rest => p ++ sep ++ joinSep sep (q :: rest)

/-! ## Theorems -/

/-- `"N/A"` has no colon, so it never parses as a clock time. -/
theorem parseHM_NA : parseHM "N/A" = Option.none := by decide

/-- `is_on_time` returns `"Unknown"` on `"N/A"` or any parse failure. -/
theorem is_on_time_unknown (s a : String)
    (h : s = "N/A" ∨ a = "N/A" ∨ parseHM s = Option.none ∨ parseHM a = Option.none) :
    is_on_time s a = "Unknown" := by
  unfold is_on_time
  by_cases hna : s = "N/A" ∨ a = "N/A"
  · rw [if_pos hna]
  · rw [if_neg hna]
    rcases h with h | h | h | h
    · exact absurd (Or.inl h) hna
    · exact absurd (Or.inr h) hna
    · rw [h]
    · rw [h]
      rcases parseHM s with _ | ⟨sh, sm⟩ <;> rfl

/-- When both inputs parse as clock pairs, `is_on_time` is the minutes
formula with the inclusive 15-minute tolerance. -/
theorem is_on_time_of_parses (s a : String) (sh sm ah am : Int)
    (hs : parseHM s = some (sh, sm)) (ha : parseHM a = some (ah, am)) :
    is_on_time s a =
      if ah * 60 + am ≤ sh * 60 + sm + 15 then "On Time" else "Delayed" := by
  have hsna : ¬(s = "N/A" ∨ a = "N/A") := by
    rintro (he | he)
    · rw [he, parseHM_NA] at hs; exact Option.noConfusion hs
    · rw [he, parseHM_NA] at ha; exact Option.noConfusion ha
  unfold is_on_time
  rw [if_neg hsna, hs, ha]

/-- C1: for every pair of string inputs to `is_on_time`: if either input is
`"N/A"` or either fails to parse as two colon-separated integers, the result
is `"Unknown"`; otherwise, converting both to minutes-since-midnight
(`hours*60+minutes`), the result is `"On Time"` exactly when
`actual <= scheduled + 15` (a flight exactly 15 minutes late is On Time) and
`"Delayed"` otherwise. -/
theorem is_on_time_classifies (s a : String) :
    ((s = "N/A" ∨ a = "N/A" ∨ parseHM s = Option.none ∨ parseHM a = Option.none) →
      is_on_time s a = "Unknown") ∧
    (∀ sh sm ah am : Int, parseHM s = some (sh, sm) → parseHM a = some (ah, am) →
      is_on_time s a =
        if ah * 60 + am ≤ sh * 60 + sm + 15 then "On Time" else "Delayed") :=
  ⟨is_on_time_unknown s a,
   fun sh sm ah am hs ha => is_on_time_of_parses s a sh sm ah am hs ha⟩

/-- Witness for `is_on_time_classifies`: the boundary example
`classify("14:25","14:40") = OnTime` and an unparseable input. -/
theorem is_on_time_classifies_witness :
    is_on_time "14:25" "14:40" = "On Time" ∧ is_on_time "14:25" "bad" = "Unknown" := by
  constructor
  · have h := (is_on_time_classifies "14:25" "14:40").2 14 25 14 40 (by decide) (by decide)
    rw [h]; decide
  · exact (is_on_time_classifies "14:25" "bad").1
      (Or.inr (Or.inr (Or.inr (by decide))))

/-- C10: `is_on_time` performs no range validation on parsed times: whenever
both inputs parse as two colon-separated integers but some component is
outside the 24-hour clock range, the verdict is still computed by the minutes
formula (so never `"Unknown"`); only the numeric shape is checked. -/
theorem is_on_time_no_range_check (s a : String) (sh sm ah am : Int)
    (hs : parseHM s = some (sh, sm)) (ha : parseHM a = some (ah, am))
    (_hout : ¬(0 ≤ sh ∧ sh < 24 ∧ 0 ≤ sm ∧ sm < 60 ∧
              0 ≤ ah ∧ ah < 24 ∧ 0 ≤ am ∧ am < 60)) :
    is_on_time s a =
      (if ah * 60 + am ≤ sh * 60 + sm + 15 then "On Time" else "Delayed") ∧
    is_on_time s a ≠ "Unknown" := by
  have h := is_on_time_of_parses s a sh sm ah am hs ha
  refine ⟨h, ?_⟩
  rw [h]
  by_cases hle : ah * 60 + am ≤ sh * 60 + sm + 15
  · rw [if_pos hle]; decide
  · rw [if_neg hle]; decide

/-- Witness for `is_on_time_no_range_check`: `"25:99"` vs `"99:00"` and the
negative component `"-1:30"` are classified by the formula, not `"Unknown"`. -/
theorem is_on_time_no_range_check_witness :
    is_on_time "25:99" "99:00" ≠ "Unknown" ∧ is_on_time "-1:30" "0:10" ≠ "Unknown" := by
  constructor
  · exact (is_on_time_no_range_check "25:99" "99:00" 25 99 99 0
      (by decide) (by decide) (by decide)).2
  · exact (is_on_time_no_range_check "-1:30" "0:10" (-1) 30 0 10
      (by decide) (by decide) (by decide)).2

/-- The split helper never produces an empty list of segments, so Python's
`status.split("At gate ")[-1]` can never raise. -/
theorem pySplitAuxL_ne_nil (sep : List Char) (l : List Char) :
    ∀ cur, pySplitAuxL sep cur l ≠ [] := by
  induction l with
  | nil => intro cur; simp [pySplitAuxL]
  | cons c rest ih =>
    intro cur
    unfold pySplitAuxL
    by_cases h : sep.reverse.isPrefixOf (c :: cur)
    · rw [if_pos h]; simp
    · rw [if_neg h]; exact ih (c :: cur)

theorem pySplit_ne_nil (s sep : String) : pySplit s sep ≠ [] := by
  unfold pySplit pySplitL
  intro h
  exact pySplitAuxL_ne_nil sep.data s.data [] (by simpa using h)

/-- The arrival-mode `"At gate"` branch of the `actual_time` expression never
raises, since `split` always yields at least one segment. -/
theorem pyIdxLast_pySplit_isOk (s sep : String) :
    (pyIdxLast (pySplit s sep)).isOk = true := by
  unfold pyIdxLast
  rcases hl : (pySplit s sep).getLast? with _ | x
  · exact absurd (List.getLast?_eq_none_iff.mp hl) (pySplit_ne_nil _ _)
  · rfl

/-- The arrival/departure `actual_time` expression succeeds exactly when it
is not the departure `"Dep "`-with-no-second-token case. -/
theorem actualTimeE_ok_iff (arrival : Bool) (f : RawFlight) :
    (actualTimeE arrival f).isOk = true ↔
      ¬(arrival = false ∧ pyStartsWith "Dep " (f.status.getD "N/A") = true ∧
        (pyWords (f.status.getD "N/A")).length < 2) := by
  unfold actualTimeE
  cases arrival with
  | true =>
    refine iff_of_true ?_ (fun hc => Bool.noConfusion hc.1)
    simp only [Bool.true_and, Bool.not_true, Bool.false_and]
    by_cases h : pyContains "At gate" (f.status.getD "N/A") = true
    · rw [if_pos h]
      exact pyIdxLast_pySplit_isOk _ _
    · rw [if_neg h, if_neg (by simp)]
      rfl
  | false =>
    simp only [Bool.false_and, Bool.not_false, Bool.true_and,
      if_neg (by simp : ¬(false = true)), true_and]
    by_cases h : pyStartsWith "Dep " (f.status.getD "N/A") = true
    · rw [if_pos h]
      simp only [h, true_and]
      rcases hw : pyWords (f.status.getD "N/A") with _ | ⟨w, _ | ⟨w', ws⟩⟩ <;>
        simp [pyIdx, Except.isOk, Except.toBool]
    · rw [if_neg h]
      exact iff_of_true rfl (fun hc => absurd hc.1 h)

/-- The `location` expression succeeds exactly when it is not the
falsy-location-field, `listAirport == []` case. -/
theorem locationCore_ok_iff (locField : Option (List String))
    (listAirport : Option (List AirportEntry)) :
    (locationCore locField listAirport).isOk = true ↔
      ¬(listTruthy locField = false ∧ listAirport = some []) := by
  unfold locationCore
  by_cases ht : listTruthy locField = true
  · rw [if_pos ht]
    rcases locField with _ | ⟨_ | ⟨x, xs⟩⟩ <;>
      simp_all [listTruthy, pyIdx, Except.isOk, Except.toBool]
  · rw [if_neg ht]
    rcases listAirport with _ | ⟨_ | ⟨a, as⟩⟩ <;>
      simp_all [pyIdx, Except.isOk, Except.toBool, Except.bind, Bind.bind]

/-- The normalization succeeds exactly when both fallible sub-expressions do. -/
theorem mkFlightInfo_isOk (arrival : Bool) (fn date : String) (f : RawFlight) :
    (mkFlightInfo arrival fn date f).isOk =
      ((actualTimeE arrival f).isOk && (locationE arrival f).isOk) := by
  unfold mkFlightInfo
  rcases actualTimeE arrival f with e | t
  · rfl
  · rcases locationE arrival f with e | loc <;> rfl

/-- Inversion of a successful normalization: both sub-expressions succeeded
and the record is the dict literal built from their values. -/
theorem mkFlightInfo_ok_inv {arrival : Bool} {fn date : String} {f : RawFlight}
    {r : FlightInfo} (h : mkFlightInfo arrival fn date f = .ok r) :
    ∃ t loc, actualTimeE arrival f = .ok t ∧ locationE arrival f = .ok loc ∧
      r = flightDict arrival fn date f t loc := by
  unfold mkFlightInfo at h
  rcases hat : actualTimeE arrival f with e | t
  · rw [hat] at h
    simp [Bind.bind, Except.bind] at h
  · rw [hat] at h
    rcases hloc : locationE arrival f with e | loc
    · rw [hloc] at h
      simp [Bind.bind, Except.bind] at h
    · rw [hloc] at h
      simp only [Bind.bind, Except.bind, Except.ok.injEq] at h
      exact ⟨t, loc, rfl, rfl, h.symm⟩

/-- C2 counterexample: the normalization step in `main` does raise on the
inputs the claim includes - a departure status `"Dep "` with no second token
(`status.split()[1]` raises `IndexError`), and a falsy location field
combined with `listAirport == []` (`flight.get("listAirport", [{}])[0]`
raises `IndexError`). -/
theorem mkFlightInfo_raises :
    mkFlightInfo false "CX418" "2025-06-12" depBareEntry = .error .indexError ∧
    mkFlightInfo true "HX631" "2025-06-12" emptyAirportEntry = .error .indexError :=
  ⟨rfl, rfl⟩

/-- C2 amended: the normalization step in `main` (actual-time extraction and
location selection) completes without raising exactly when the entry is not
in one of the two `IndexError` cases: a departure-mode status starting with
`"Dep "` whose whitespace tokenization has fewer than two tokens, or a
falsy direction location field with `listAirport` present but empty. -/
theorem mkFlightInfo_ok_iff (arrival : Bool) (fn date : String) (f : RawFlight) :
    (mkFlightInfo arrival fn date f).isOk = true ↔
      (¬(arrival = false ∧ pyStartsWith "Dep " (f.status.getD "N/A") = true ∧
         (pyWords (f.status.getD "N/A")).length < 2) ∧
       ¬(listTruthy (if arrival then f.origin else f.destination) = false ∧
         f.listAirport = some [])) := by
  rw [mkFlightInfo_isOk, Bool.and_eq_true, actualTimeE_ok_iff]
  unfold locationE
  rw [locationCore_ok_iff]

/-- Witness for `mkFlightInfo_ok_iff`: a well-formed arrival entry
normalizes without an exception. -/
theorem mkFlightInfo_ok_iff_witness :
    (mkFlightInfo true "HX631" "2025-06-12" arrGateEntry).isOk = true :=
  (mkFlightInfo_ok_iff true "HX631" "2025-06-12" arrGateEntry).mpr
    ⟨by decide, by decide⟩

/-- C4 counterexample: direction-irrelevant fields are not omitted - an
Arrival record carries the key `"aisle"` with the null placeholder `None`,
and a Departure record carries `"baggage"` as `None`. -/
theorem flightDict_null_placeholders :
    (mkFlightInfo true "hx631" "2025-06-12" arrGateEntry).map
      (fun r => List.lookup "aisle" r) = .ok (some PyVal.none) ∧
    (mkFlightInfo false "cx418" "2025-06-12" depGateEntry).map
      (fun r => List.lookup "baggage" r) = .ok (some PyVal.none) ∧
    some PyVal.none ≠ (Option.none : Option PyVal) :=
  ⟨rfl, rfl, by decide⟩

/-- C4 amended: for every normalized record, the fields irrelevant to the
record's direction are present with the null placeholder `None` (not
omitted): an Arrival record has `aisle` and `gate` set to `None` and carries
string values for `baggage`, `hall`, `stand`; a Departure record has
`baggage`, `hall`, `stand` set to `None` and carries string values for
`aisle`, `gate`. -/
theorem flightDict_direction_fields (arrival : Bool) (fn date : String) (f : RawFlight)
    (r : FlightInfo) (h : mkFlightInfo arrival fn date f = .ok r) :
    (arrival = true → List.lookup "aisle" r = some PyVal.none ∧
      List.lookup "gate" r = some PyVal.none ∧
      List.lookup "baggage" r = some (PyVal.str (f.baggage.getD "N/A")) ∧
      List.lookup "hall" r = some (PyVal.str (f.hall.getD "N/A")) ∧
      List.lookup "stand" r = some (PyVal.str (f.stand.getD "N/A"))) ∧
    (arrival = false → List.lookup "baggage" r = some PyVal.none ∧
      List.lookup "hall" r = some PyVal.none ∧
      List.lookup "stand" r = some PyVal.none ∧
      List.lookup "aisle" r = some (PyVal.str (f.aisle.getD "N/A")) ∧
      List.lookup "gate" r = some (PyVal.str (f.gate.getD "N/A"))) := by
  obtain ⟨t, loc, -, -, hr⟩ := mkFlightInfo_ok_inv h
  subst hr
  cases arrival with
  | true => exact ⟨fun _ => ⟨rfl, rfl, rfl, rfl, rfl⟩, fun hc => Bool.noConfusion hc⟩
  | false => exact ⟨fun hc => Bool.noConfusion hc, fun _ => ⟨rfl, rfl, rfl, rfl, rfl⟩⟩

/-- Witness for `flightDict_direction_fields` at a concrete arrival record. -/
theorem flightDict_direction_fields_witness :
    List.lookup "aisle" arrGateRec = some PyVal.none :=
  ((flightDict_direction_fields true "HX631" "2025-06-12" arrGateEntry arrGateRec
    rfl).1 rfl).1

/-- C7 counterexample: for input `"cx 418"` the stored `flight_number` is
`"cx418"` - spaces removed but case preserved - not the uppercased
`"CX418"` the claim requires. -/
theorem record_flight_number_not_uppercased :
    normalizeInput "cx 418" = "cx418" ∧
    (mkFlightInfo false (normalizeInput "cx 418") "2025-06-12" depGateEntry).map
      (fun r => List.lookup "flight_number" r) = .ok (some (PyVal.str "cx418")) ∧
    "cx418" ≠ "CX418" :=
  ⟨rfl, rfl, by decide⟩

/-- C7 amended: the `flightNumber` stored in each resulting normalized record
is the user input with surrounding whitespace stripped and internal space
characters removed, with letter case preserved (uppercasing happens only
during matching); e.g. input `"cx 418"` yields record flightNumber
`"cx418"`. -/
theorem record_flight_number_normalized (input : String) (arrival : Bool)
    (date : String) (f : RawFlight) (r : FlightInfo)
    (h : mkFlightInfo arrival (normalizeInput input) date f = .ok r) :
    List.lookup "flight_number" r = some (PyVal.str (normalizeInput input)) ∧
    (normalizeInput input).data = (stripL input.data).filter (fun c => c != ' ') := by
  obtain ⟨t, loc, -, -, hr⟩ := mkFlightInfo_ok_inv h
  subst hr
  exact ⟨rfl, rfl⟩

/-- Witness for `record_flight_number_normalized` at a concrete input. -/
theorem record_flight_number_normalized_witness :
    List.lookup "flight_number" depGateRec = some (PyVal.str (normalizeInput "cx 418")) :=
  (record_flight_number_normalized "cx 418" false "2025-06-12" depGateEntry
    depGateRec rfl).1

/-- C6 counterexample: the code's branch condition is `"At gate" in status`
without the trailing space, so for status `"At gate"` - which does not
contain `"At gate "` - the derived actual time is `"At gate"` (the whole
status) instead of the claim's fallback to the `actualTime` field
`"12:34"`. -/
theorem arrival_actual_time_cex :
    pyContains "At gate " "At gate" = false ∧
    gateNoSpaceEntry.actualTime = some "12:34" ∧
    actualTimeE true gateNoSpaceEntry = .ok "At gate" ∧
    "At gate" ≠ "12:34" :=
  ⟨rfl, rfl, rfl, by decide⟩

/-- `values.pop() if len(values) == 1 else "Varies"` computes the unique
element of the distinct-value set when that set is a singleton, and the
sentinel otherwise. -/
theorem summaryValue_spec (vals : List String) :
    (∀ v, vals.toFinset = {v} → summaryValue vals = v) ∧
    (vals.toFinset.card ≠ 1 → summaryValue vals = "Varies") := by
  constructor
  · intro v hv
    have hcard : vals.dedup.length = 1 := by
      rw [← List.card_toFinset, hv, Finset.card_singleton]
    unfold summaryValue
    rcases hd : vals.dedup with _ | ⟨x, _ | ⟨y, t⟩⟩
    · rw [hd] at hcard; simp at hcard
    · have hx : x ∈ vals.toFinset := by
        rw [List.mem_toFinset, ← List.mem_dedup, hd]
        exact List.mem_singleton_self x
      rw [hv, Finset.mem_singleton] at hx
      exact hx
    · rw [hd] at hcard; simp at hcard
  · intro hcard
    rw [List.card_toFinset] at hcard
    unfold summaryValue
    rcases hd : vals.dedup with _ | ⟨x, _ | ⟨y, t⟩⟩
    · rfl
    · rw [hd] at hcard; simp at hcard
    · rfl

/-- C5: given a non-empty sequence of normalized records, the aggregated
summary location is the unique element of the set of distinct location
values when that set has exactly one element and the sentinel `"Varies"`
otherwise, and the same rule holds for the summary scheduled time over the
set of distinct `scheduled_time` values. -/
theorem summary_unique_or_varies (flights : List FlightInfo) (_hne : flights ≠ []) :
    (∀ v, (flights.map (fun r => recStr r "location")).toFinset = {v} →
      locationSummary flights = v) ∧
    ((flights.map (fun r => recStr r "location")).toFinset.card ≠ 1 →
      locationSummary flights = "Varies") ∧
    (∀ v, (flights.map (fun r => recStr r "scheduled_time")).toFinset = {v} →
      scheduledSummary flights = v) ∧
    ((flights.map (fun r => recStr r "scheduled_time")).toFinset.card ≠ 1 →
      scheduledSummary flights = "Varies") :=
  ⟨(summaryValue_spec _).1, (summaryValue_spec _).2,
   (summaryValue_spec _).1, (summaryValue_spec _).2⟩

/-- Witness for `summary_unique_or_varies`: three ICN records summarize to
`"ICN"`; an ICN/NRT mix summarizes to `"Varies"`. -/
theorem summary_unique_or_varies_witness :
    locationSummary [[("location", PyVal.str "ICN")], [("location", PyVal.str "ICN")],
      [("location", PyVal.str "ICN")]] = "ICN" ∧
    locationSummary [[("location", PyVal.str "ICN")], [("location", PyVal.str "NRT")]] =
      "Varies" := by
  constructor
  · exact (summary_unique_or_varies _ (by decide)).1 "ICN" (by decide)
  · refine (summary_unique_or_varies _ (by decide)).2.1 ?_
    decide

/-- The append-if-match loop of `fetch_flight_data` is a filter. -/
theorem matchLoop_eq_filter (fn : String) (l : List RawFlight) :
    matchLoop fn l = l.filter (entryMatches fn) := by
  induction l with
  | nil => rfl
  | cons f rest ih =>
    unfold matchLoop
    by_cases h : entryMatches fn f <;> simp [h, List.filter_cons, ih]

/-- An entry matches exactly when some alias code, spaces removed and
uppercased, equals the uppercased flight number. -/
theorem entryMatches_iff (fn : String) (f : RawFlight) :
    entryMatches fn f = true ↔
      ∃ a ∈ f.flight.getD [],
        pyUpper (pyReplaceSpace (a.no.getD "")) = pyUpper fn := by
  unfold entryMatches
  rcases hf : f.flight with _ | ⟨_ | ⟨a, rest⟩⟩ <;>
    simp [aliasMatches, List.any_eq_true]

/-- Multiplicity through the matching loop: a matching entry keeps its
multiplicity from `flight_list`, a non-matching one is dropped. -/
theorem count_matchLoop (fn : String) (f : RawFlight) (l : List RawFlight) :
    List.count f (matchLoop fn l) =
      if entryMatches fn f = true then List.count f l else 0 := by
  induction l with
  | nil => simp [matchLoop]
  | cons g rest ih =>
    unfold matchLoop
    by_cases hg : entryMatches fn g = true
    · rw [if_pos hg]
      by_cases hfg : g = f
      · subst hfg; simp [List.count_cons, ih, hg]
      · simp [List.count_cons, ih, hfg]
    · rw [if_neg hg]
      by_cases hfg : g = f
      · subst hfg; simp [ih, hg]
      · simp [List.count_cons, ih, hfg]

/-- C8: flight-code matching is case- and whitespace-insensitive - an entry
is kept if and only if it is in the fetched list and some alias code, after
removing spaces and uppercasing, equals the requested flight number after
stripping, removing spaces and uppercasing; and a matching entry is included
exactly once per occurrence in the fetched list, regardless of how many of
its aliases match. -/
theorem matching_case_space_insensitive (input : String) (l : List RawFlight)
    (f : RawFlight) :
    (f ∈ matchLoop (normalizeInput input) l ↔
      f ∈ l ∧ ∃ a ∈ f.flight.getD [],
        pyUpper (pyReplaceSpace (a.no.getD "")) =
          pyUpper (pyReplaceSpace (pyStrip input))) ∧
    List.count f (matchLoop (normalizeInput input) l) =
      (if entryMatches (normalizeInput input) f = true then List.count f l else 0) := by
  constructor
  · rw [matchLoop_eq_filter, List.mem_filter, entryMatches_iff]
    exact Iff.rfl
  · exact count_matchLoop _ _ _

/-- Witness for `matching_case_space_insensitive`: alias `"CX 418"` matches
requested `"cx418"`, and the entry appears exactly once. -/
theorem matching_case_space_insensitive_witness :
    depGateEntry ∈ matchLoop (normalizeInput "cx418") [depGateEntry] ∧
    List.count depGateEntry (matchLoop (normalizeInput "cx418") [depGateEntry]) = 1 := by
  constructor
  · exact (matching_case_space_insensitive "cx418" [depGateEntry] depGateEntry).1.mpr
      ⟨by decide, ⟨{ no := some "CX 418" }, by decide, by decide⟩⟩
  · rw [(matching_case_space_insensitive "cx418" [depGateEntry] depGateEntry).2]
    decide

/-- A date whose fetch raised a request exception contributes zero records. -/
theorem okRecords_of_error (arrival : Bool) (fn : String)
    (resp : String → Except ReqErr JsonResp) (d : String) (e : ReqErr)
    (he : resp d = .error e) :
    okRecords arrival fn resp d = [] := by
  unfold okRecords processDate
  rw [he]
  rfl

/-- The window fold, when every date's processing succeeds, returns the
concatenation of the per-date record lists in date order. -/
theorem collectWindow_eq_flatMap (arrival : Bool) (fn : String)
    (resp : String → Except ReqErr JsonResp) (dates : List String)
    (hok : ∀ d ∈ dates, (processDate arrival fn d (resp d)).isOk = true) :
    collectWindow arrival fn dates resp =
      .ok (dates.flatMap (okRecords arrival fn resp)) := by
  unfold collectWindow
  suffices h : ∀ acc : List FlightInfo,
      collectWindowAux arrival fn resp dates acc =
        .ok (acc ++ dates.flatMap (okRecords arrival fn resp)) by
    simpa using h []
  induction dates with
  | nil => intro acc; simp [collectWindowAux]
  | cons d ds ih =>
    intro acc
    have hd := hok d (List.mem_cons_self d ds)
    rcases hp : processDate arrival fn d (resp d) with e | l
    · rw [hp] at hd; exact absurd hd (by simp [Except.isOk, Except.toBool])
    · have hrec : okRecords arrival fn resp d = l := by
        unfold okRecords; rw [hp]; rfl
      have ih' := ih (fun x hx => hok x (List.mem_cons_of_mem d hx)) (acc ++ l)
      simp only [collectWindowAux, hp, List.flatMap_cons, hrec, Bind.bind, Except.bind]
      rw [ih', List.append_assoc]

/-- C3: a request exception for one date yields an empty list for that date
(`fetch_flight_data` returns `[]`), the window loop still processes every
other date, and - provided the surviving entries normalize without a Python
error - the final `all_flights` is exactly the concatenation of the records
of the successful dates: a single date's failure never aborts the window. -/
theorem single_date_failure_isolated (arrival : Bool) (fn fn' : String)
    (resp : String → Except ReqErr JsonResp) (dates : List String) (e : ReqErr)
    (hok : ∀ d ∈ dates, (processDate arrival fn d (resp d)).isOk = true) :
    fetch_flight_data (.error e) fn' = [] ∧
    collectWindow arrival fn dates resp =
      .ok (dates.flatMap (okRecords arrival fn resp)) ∧
    dates.flatMap (okRecords arrival fn resp) =
      (dates.filter (fun d => (resp d).isOk)).flatMap (okRecords arrival fn resp) := by
  refine ⟨rfl, collectWindow_eq_flatMap arrival fn resp dates hok, ?_⟩
  induction dates with
  | nil => rfl
  | cons d ds ih =>
    have ih' := ih (fun x hx => hok x (List.mem_cons_of_mem d hx))
    rcases hr : resp d with er | j
    · have hz := okRecords_of_error arrival fn resp d er hr
      simp [List.filter_cons, hr, Except.isOk, Except.toBool, hz, ih']
    · simp [List.filter_cons, hr, Except.isOk, Except.toBool, ih']

/-- Witness for `single_date_failure_isolated`: with the 2025-06-12 fetch
failing, the window still returns the records of 2025-06-11. -/
theorem single_date_failure_isolated_witness :
    collectWindow false "CX418" ["2025-06-12", "2025-06-11"] respEx =
      .ok (List.flatMap ["2025-06-12", "2025-06-11"] (okRecords false "CX418" respEx)) :=
  (single_date_failure_isolated false "CX418" "X" respEx ["2025-06-12", "2025-06-11"]
    .requestException (by decide)).2.1

/-- Membership through descending insertion. -/
theorem mem_insertDesc (key : α → String) (x y : α) (l : List α) :
    y ∈ insertDesc key x l ↔ y = x ∨ y ∈ l := by
  induction l with
  | nil => simp [insertDesc]
  | cons z zs ih =>
    by_cases h : key z < key x <;> simp [insertDesc, h, ih, or_left_comm]

/-- Descending insertion is a permutation of consing. -/
theorem insertDesc_perm (key : α → String) (x : α) (l : List α) :
    (insertDesc key x l).Perm (x :: l) := by
  induction l with
  | nil => exact List.Perm.refl _
  | cons z zs ih =>
    unfold insertDesc
    by_cases h : key z < key x
    · rw [if_pos h]
    · rw [if_neg h]
      exact (ih.cons z).trans (List.Perm.swap x z zs)

/-- Descending insertion preserves the sorted-descending invariant. -/
theorem pairwise_insertDesc (key : α → String) (x : α) (l : List α)
    (hl : l.Pairwise (fun a b => key b ≤ key a)) :
    (insertDesc key x l).Pairwise (fun a b => key b ≤ key a) := by
  induction l with
  | nil => simp [insertDesc]
  | cons z zs ih =>
    rcases List.pairwise_cons.mp hl with ⟨hz, hzs⟩
    unfold insertDesc
    by_cases h : key z < key x
    · rw [if_pos h]
      refine List.pairwise_cons.mpr ⟨?_, hl⟩
      intro y hy
      rcases List.mem_cons.mp hy with rfl | hy
      · exact le_of_lt h
      · exact le_trans (hz y hy) (le_of_lt h)
    · rw [if_neg h]
      refine List.pairwise_cons.mpr ⟨?_, ih hzs⟩
      intro y hy
      rcases (mem_insertDesc key x y zs).mp hy with rfl | hy
      · exact le_of_not_lt h
      · exact hz y hy

/-- Stability of one descending insertion into a sorted-descending list: the
new element lands after every existing element with the same key. -/
theorem filter_insertDesc (key : α → String) (d : String) (x : α) (l : List α)
    (hl : l.Pairwise (fun a b => key b ≤ key a)) :
    (insertDesc key x l).filter (fun r => key r == d) =
      (if key x == d then l.filter (fun r => key r == d) ++ [x]
       else l.filter (fun r => key r == d)) := by
  induction l with
  | nil => by_cases hx : key x == d <;> simp [insertDesc, hx]
  | cons z zs ih =>
    rcases List.pairwise_cons.mp hl with ⟨hz, hzs⟩
    unfold insertDesc
    by_cases h : key z < key x
    · rw [if_pos h]
      by_cases hx : key x == d
      · rw [if_pos hx]
        have hnil : (z :: zs).filter (fun r => key r == d) = [] := by
          rw [List.filter_eq_nil_iff]
          intro y hy
          have hyz : key y ≤ key z := by
            rcases List.mem_cons.mp hy with rfl | hy'
            · exact le_refl _
            · exact hz y hy'
          have : key y < key x := lt_of_le_of_lt hyz h
          simp only [beq_iff_eq]
          intro hyd
          exact absurd (hyd.trans (eq_of_beq hx).symm) (ne_of_lt this)
        have hxl : (x :: z :: zs).filter (fun r => key r == d) =
            x :: (z :: zs).filter (fun r => key r == d) := by
          simp [List.filter_cons, hx]
        rw [hxl, hnil]
        simp
      · rw [if_neg hx]
        simp [List.filter_cons, hx]
    · rw [if_neg h]
      simp only [List.filter_cons, ih hzs]
      by_cases hz' : key z == d <;> by_cases hx : key x == d <;> simp [hz', hx]

/-- The display sort is a permutation of the collected records. -/
theorem sortDescBy_perm (key : α → String) (l : List α) :
    (sortDescBy key l).Perm l := by
  unfold sortDescBy
  suffices h : ∀ acc : List α, (l.foldl (fun a x => insertDesc key x a) acc).Perm (acc ++ l) by
    simpa using h []
  induction l with
  | nil => intro acc; simp
  | cons x xs ih =>
    intro acc
    simp only [List.foldl_cons]
    have h1 := ih (insertDesc key x acc)
    have h2 : (insertDesc key x acc ++ xs).Perm (acc ++ x :: xs) :=
      ((insertDesc_perm key x acc).append_right xs).trans List.perm_middle.symm
    exact h1.trans h2

/-- The display sort is sorted descending by key. -/
theorem sortDescBy_pairwise (key : α → String) (l : List α) :
    (sortDescBy key l).Pairwise (fun a b => key b ≤ key a) := by
  unfold sortDescBy
  suffices h : ∀ acc : List α, acc.Pairwise (fun a b => key b ≤ key a) →
      (l.foldl (fun a x => insertDesc key x a) acc).Pairwise (fun a b => key b ≤ key a) by
    exact h [] List.Pairwise.nil
  induction l with
  | nil => intro acc hacc; simpa using hacc
  | cons x xs ih =>
    intro acc hacc
    simp only [List.foldl_cons]
    exact ih _ (pairwise_insertDesc key x acc hacc)

/-- The display sort is stable: for every key value, the records with that
key appear in their original relative order. -/
theorem sortDescBy_filter (key : α → String) (d : String) (l : List α) :
    (sortDescBy key l).filter (fun r => key r == d) =
      l.filter (fun r => key r == d) := by
  unfold sortDescBy
  suffices h : ∀ acc : List α, acc.Pairwise (fun a b => key b ≤ key a) →
      (l.foldl (fun a x => insertDesc key x a) acc).filter (fun r => key r == d) =
        acc.filter (fun r => key r == d) ++ l.filter (fun r => key r == d) by
    simpa using h [] List.Pairwise.nil
  induction l with
  | nil => intro acc _; simp
  | cons x xs ih =>
    intro acc hacc
    simp only [List.foldl_cons]
    rw [ih _ (pairwise_insertDesc key x acc hacc),
      filter_insertDesc key d x acc hacc, List.filter_cons]
    by_cases hx : key x == d
    · simp [hx]
    · simp [hx]

/-- Characterization of `List.isPrefixOf` for characters. -/
theorem isPrefixOf_iff : ∀ (l₁ l₂ : List Char),
    l₁.isPrefixOf l₂ = true ↔ ∃ t, l₂ = l₁ ++ t
  | [], l₂ => by simp [List.isPrefixOf]
  | a :: as, [] => by simp [List.isPrefixOf]
  | a :: as, b :: bs => by
    simp only [List.isPrefixOf, Bool.and_eq_true, beq_iff_eq]
    constructor
    · rintro ⟨rfl, h⟩
      obtain ⟨t, rfl⟩ := (isPrefixOf_iff as bs).mp h
      exact ⟨t, rfl⟩
    · rintro ⟨t, ht⟩
      rw [List.cons_append] at ht
      injection ht with h1 h2
      subst h1
      exact ⟨rfl, (isPrefixOf_iff as bs).mpr ⟨t, h2⟩⟩

/-- Characterization of the Python substring test as a decomposition. -/
theorem containsL_iff (sep : List Char) (l : List Char) :
    containsL sep l = true ↔ ∃ pre suf, l = pre ++ sep ++ suf := by
  induction l with
  | nil =>
    constructor
    · intro h
      have hsep : sep = [] := by
        cases sep with
        | nil => rfl
        | cons a as => simp [containsL] at h
      exact ⟨[], [], by simp [hsep]⟩
    · rintro ⟨pre, suf, h⟩
      obtain ⟨hps, -⟩ := List.append_eq_nil.mp h.symm
      obtain ⟨-, hsep⟩ := List.append_eq_nil.mp hps
      subst hsep
      rfl
  | cons c rest ih =>
    simp only [containsL, Bool.or_eq_true, ih, isPrefixOf_iff]
    constructor
    · rintro (⟨t, ht⟩ | ⟨pre, suf, rfl⟩)
      · exact ⟨[], t, by simpa using ht⟩
      · exact ⟨c :: pre, suf, by simp⟩
    · rintro ⟨pre, suf, h⟩
      rcases pre with _ | ⟨p, ps⟩
      · left
        exact ⟨suf, by simpa using h⟩
      · right
        rw [List.cons_append, List.cons_append] at h
        injection h with h1 h2
        exact ⟨ps, suf, h2⟩

/-- A substring occurrence in `A ++ [c]` either reaches the final character
or lies entirely inside `A`. -/
theorem append_snoc_decomp {A pre sep suf : List Char} {c : Char}
    (h : A ++ [c] = pre ++ sep ++ suf) :
    (suf = [] ∧ A ++ [c] = pre ++ sep) ∨
    (∃ s₀, suf = s₀ ++ [c] ∧ A = pre ++ sep ++ s₀) := by
  rcases List.eq_nil_or_concat suf with rfl | ⟨s₀, c', hsuf⟩
  · left
    exact ⟨rfl, by simpa using h⟩
  · rw [List.concat_eq_append] at hsuf
    subst hsuf
    right
    have h' : A ++ [c] = ((pre ++ sep) ++ s₀) ++ [c'] := by
      rw [h]
      simp [List.append_assoc]
    obtain ⟨h1, h2⟩ := List.append_inj' h' rfl
    injection h2 with hc _
    subst hc
    exact ⟨s₀, rfl, h1⟩

theorem joinSep_cons_of_ne_nil (sep : List Char) (p : List Char)
    {l : List (List Char)} (hl : l ≠ []) :
    joinSep sep (p :: l) = p ++ sep ++ joinSep sep l := by
  rcases l with _ | ⟨q, qs⟩
  · exact absurd rfl hl
  · rfl

/-- Splitting and rejoining reconstructs the scanned text. -/
theorem joinSep_pySplitAuxL (sep : List Char) :
    ∀ (s cur : List Char), joinSep sep (pySplitAuxL sep cur s) = cur.reverse ++ s := by
  intro s
  induction s with
  | nil => intro cur; simp [pySplitAuxL, joinSep]
  | cons c rest ih =>
    intro cur
    unfold pySplitAuxL
    by_cases hpre : sep.reverse.isPrefixOf (c :: cur) = true
    · rw [if_pos hpre]
      obtain ⟨t, ht⟩ := (isPrefixOf_iff _ _).mp hpre
      rw [joinSep_cons_of_ne_nil sep _ (pySplitAuxL_ne_nil sep rest []), ih []]
      rw [ht]
      have hdrop : (sep.reverse ++ t).drop sep.length = t := by
        rw [← List.length_reverse sep]
        exact List.drop_left _ _
      rw [hdrop]
      have hsnoc : cur.reverse ++ [c] = t.reverse ++ sep := by
        have hrev := congrArg List.reverse ht
        simpa [List.reverse_append] using hrev
      calc t.reverse ++ sep ++ ([].reverse ++ rest)
          = (t.reverse ++ sep) ++ rest := by simp
        _ = (cur.reverse ++ [c]) ++ rest := by rw [hsnoc]
        _ = cur.reverse ++ c :: rest := by simp
    · rw [if_neg hpre, ih (c :: cur)]
      simp

theorem containsL_nil_of_ne {sep : List Char} (hne : sep ≠ []) :
    containsL sep [] = false := by
  cases sep with
  | nil => exact absurd rfl hne
  | cons a as => rfl

/-- Every segment produced by the splitter is separator-free (given the
pending segment is). -/
theorem pySplitAuxL_no_sep_in_parts (sep : List Char) (hne : sep ≠ []) :
    ∀ (s cur : List Char), containsL sep cur.reverse = false →
      ∀ p ∈ pySplitAuxL sep cur s, containsL sep p = false := by
  intro s
  induction s with
  | nil =>
    intro cur hcur p hp
    simp only [pySplitAuxL, List.mem_singleton] at hp
    subst hp
    exact hcur
  | cons c rest ih =>
    intro cur hcur p hp
    unfold pySplitAuxL at hp
    by_cases hpre : sep.reverse.isPrefixOf (c :: cur) = true
    · rw [if_pos hpre] at hp
      rcases List.mem_cons.mp hp with rfl | hp'
      · obtain ⟨t, ht⟩ := (isPrefixOf_iff _ _).mp hpre
        rw [ht]
        have hdrop : (sep.reverse ++ t).drop sep.length = t := by
          rw [← List.length_reverse sep]
          exact List.drop_left _ _
        rw [hdrop]
        by_contra hcon
        simp only [Bool.not_eq_false] at hcon
        obtain ⟨pre, suf, hdec⟩ := (containsL_iff sep _).mp hcon
        have hsnoc : cur.reverse ++ [c] = t.reverse ++ sep := by
          have hrev := congrArg List.reverse ht
          simpa [List.reverse_append] using hrev
        have hfull : cur.reverse ++ [c] = pre ++ sep ++ (suf ++ sep) := by
          rw [hsnoc, hdec]
          simp [List.append_assoc]
        rcases append_snoc_decomp hfull with ⟨hnil, -⟩ | ⟨s₀, -, hA⟩
        · obtain ⟨-, hsep⟩ := List.append_eq_nil.mp hnil
          exact hne hsep
        · have hct : containsL sep cur.reverse = true :=
            (containsL_iff _ _).mpr ⟨pre, s₀, hA⟩
          rw [hct] at hcur
          exact Bool.noConfusion hcur
      · exact ih [] (containsL_nil_of_ne hne) p hp'
    · rw [if_neg hpre] at hp
      refine ih (c :: cur) ?_ p hp
      by_contra hcon
      simp only [Bool.not_eq_false, List.reverse_cons] at hcon
      obtain ⟨pre, suf, hdec⟩ := (containsL_iff sep _).mp hcon
      rcases append_snoc_decomp hdec with ⟨rfl, heq⟩ | ⟨s₀, -, hA⟩
      · have hrev : c :: cur = sep.reverse ++ pre.reverse := by
          have := congrArg List.reverse heq
          simpa [List.reverse_append] using this
        exact hpre ((isPrefixOf_iff _ _).mpr ⟨pre.reverse, hrev⟩)
      · have hct : containsL sep cur.reverse = true :=
          (containsL_iff _ _).mpr ⟨pre, s₀, hA⟩
        rw [hct] at hcur
        exact Bool.noConfusion hcur

/-- If the splitter returns a single segment, no separator occurrence ends
inside the scanned region. -/
theorem pySplitAuxL_length_one (sep : List Char) (_hne : sep ≠ []) :
    ∀ (s cur : List Char), (pySplitAuxL sep cur s).length = 1 →
      ∀ pre suf, cur.reverse ++ s = pre ++ sep ++ suf → ¬ suf.length < s.length := by
  intro s
  induction s with
  | nil =>
    intro cur _ pre suf _ hlen
    exact Nat.not_lt_zero _ hlen
  | cons c rest ih =>
    intro cur h1 pre suf hdec hlen
    unfold pySplitAuxL at h1
    by_cases hpre : sep.reverse.isPrefixOf (c :: cur) = true
    · rw [if_pos hpre] at h1
      simp only [List.length_cons] at h1
      have hz : pySplitAuxL sep [] rest = [] := List.length_eq_zero.mp (by omega)
      exact pySplitAuxL_ne_nil sep rest [] hz
    · rw [if_neg hpre] at h1
      have hdec' : (c :: cur).reverse ++ rest = pre ++ sep ++ suf := by
        rw [List.reverse_cons]
        simpa [List.append_assoc] using hdec
      rcases Nat.lt_or_ge suf.length rest.length with hlt | hge
      · exact ih (c :: cur) h1 pre suf hdec' hlt
      · have hlen_eq : rest.length = suf.length := by
          simp only [List.length_cons] at hlen
          omega
        have hdec2 : (cur.reverse ++ [c]) ++ rest = (pre ++ sep) ++ suf := by
          simpa [List.append_assoc] using hdec
        obtain ⟨h1', -⟩ := List.append_inj' hdec2 hlen_eq
        have hrev : c :: cur = sep.reverse ++ pre.reverse := by
          have := congrArg List.reverse h1'
          simpa [List.reverse_append] using this
        exact hpre ((isPrefixOf_iff _ _).mpr ⟨pre.reverse, hrev⟩)

/-- If no separator occurrence ends inside the scanned region, the splitter
returns the single pending segment. -/
theorem pySplitAuxL_of_no_occurrence (sep : List Char) :
    ∀ (s cur : List Char),
      (∀ pre suf, cur.reverse ++ s = pre ++ sep ++ suf → ¬ suf.length < s.length) →
      pySplitAuxL sep cur s = [cur.reverse ++ s] := by
  intro s
  induction s with
  | nil => intro cur _; simp [pySplitAuxL]
  | cons c rest ih =>
    intro cur hno
    unfold pySplitAuxL
    by_cases hpre : sep.reverse.isPrefixOf (c :: cur) = true
    · exfalso
      obtain ⟨t, ht⟩ := (isPrefixOf_iff _ _).mp hpre
      have hsnoc : cur.reverse ++ [c] = t.reverse ++ sep := by
        have hrev := congrArg List.reverse ht
        simpa [List.reverse_append] using hrev
      refine hno t.reverse rest ?_ (by simp)
      calc cur.reverse ++ c :: rest = (cur.reverse ++ [c]) ++ rest := by simp
        _ = (t.reverse ++ sep) ++ rest := by rw [hsnoc]
        _ = t.reverse ++ sep ++ rest := by simp [List.append_assoc]
    · rw [if_neg hpre, ih (c :: cur) ?_]
      · simp
      · intro pre suf hdec hlt
        refine hno pre suf ?_ (by simp; omega)
        rw [List.reverse_cons] at hdec
        simpa [List.append_assoc] using hdec

/-- Python `s.split(sep)` on a separator-free string is `[s]`. -/
theorem pySplitL_of_not_contains {sep s : List Char} (_hne : sep ≠ [])
    (hnc : containsL sep s = false) : pySplitL sep s = [s] := by
  unfold pySplitL
  rw [pySplitAuxL_of_no_occurrence sep s []]
  · rfl
  · intro pre suf hdec _
    have hct : containsL sep s = true :=
      (containsL_iff _ _).mpr ⟨pre, suf, by simpa using hdec⟩
    rw [hct] at hnc
    exact Bool.noConfusion hnc

/-- A string containing the separator splits into at least two segments. -/
theorem pySplitL_length_ge_two {sep s : List Char} (hne : sep ≠ [])
    (hc : containsL sep s = true) : 2 ≤ (pySplitL sep s).length := by
  obtain ⟨pre, suf, hdec⟩ := (containsL_iff sep s).mp hc
  by_contra hlt
  push_neg at hlt
  have hpos : 0 < (pySplitL sep s).length :=
    List.length_pos.mpr (pySplitAuxL_ne_nil sep s [])
  have h1 : (pySplitL sep s).length = 1 := by omega
  refine pySplitAuxL_length_one sep hne s [] h1 pre suf (by simpa using hdec) ?_
  have hlens := congrArg List.length hdec
  simp only [List.length_append] at hlens
  have hsep : 0 < sep.length := List.length_pos.mpr hne
  omega

/-- The joined form of a segment list with at least two segments, in terms of
its last segment. -/
theorem joinSep_getLast_decomp (sep : List Char) :
    ∀ (parts : List (List Char)) (p : List Char), 2 ≤ parts.length →
      parts.getLast? = some p → ∃ A, joinSep sep parts = A ++ sep ++ p
  | [], p => by intro h _; simp at h
  | [q], p => by intro h _; simp at h
  | q :: r :: rs, p => by
    intro _ hlast
    rw [List.getLast?_cons_cons] at hlast
    rcases rs with _ | ⟨u, us⟩
    · have hp : r = p := by simpa using hlast
      subst hp
      exact ⟨q, rfl⟩
    · obtain ⟨A, hA⟩ := joinSep_getLast_decomp sep (r :: u :: us) p (by simp) hlast
      refine ⟨q ++ sep ++ A, ?_⟩
      show q ++ sep ++ joinSep sep (r :: u :: us) = q ++ sep ++ A ++ sep ++ p
      rw [hA]
      simp [List.append_assoc]

/-- A string containing `"At gate "` also contains `"At gate"`. -/
theorem contains_At_gate_of_space {l : List Char}
    (h : containsL "At gate ".data l = true) : containsL "At gate".data l = true := by
  obtain ⟨pre, suf, hdec⟩ := (containsL_iff _ _).mp h
  refine (containsL_iff _ _).mpr ⟨pre, ' ' :: suf, ?_⟩
  rw [hdec, show "At gate ".data = "At gate".data ++ [' '] from rfl]
  simp [List.append_assoc]

/-- C6 amended: for every arrival-direction raw entry, the derived actual
time is: when the status contains the substring `"At gate"` (no trailing
space required), the text following the last occurrence of `"At gate "`
(the whole status when `"At gate "` with its trailing space does not occur);
otherwise the entry's `actualTime` field when present; otherwise `"N/A"`. -/
theorem arrival_actual_time_spec (f : RawFlight) :
    (pyContains "At gate" (f.status.getD "N/A") = false →
      actualTimeE true f = .ok (f.actualTime.getD "N/A")) ∧
    (pyContains "At gate" (f.status.getD "N/A") = true →
      pyContains "At gate " (f.status.getD "N/A") = false →
      actualTimeE true f = .ok (f.status.getD "N/A")) ∧
    (pyContains "At gate " (f.status.getD "N/A") = true →
      ∃ pre suf : String, f.status.getD "N/A" = pre ++ "At gate " ++ suf ∧
        pyContains "At gate " suf = false ∧
        actualTimeE true f = .ok suf) := by
  have hsep_ne : ("At gate ".data : List Char) ≠ [] := by decide
  refine ⟨?_, ?_, ?_⟩
  · intro hnc
    unfold actualTimeE
    simp [hnc]
  · intro hc hns
    unfold actualTimeE
    have hsplit : pySplit (f.status.getD "N/A") "At gate " = [f.status.getD "N/A"] := by
      unfold pySplit
      rw [pySplitL_of_not_contains hsep_ne hns]
      rfl
    simp [hc, hsplit, pyIdxLast]
  · intro hs
    have hc : pyContains "At gate" (f.status.getD "N/A") = true :=
      contains_At_gate_of_space hs
    have h2 : 2 ≤ (pySplitL "At gate ".data (f.status.getD "N/A").data).length :=
      pySplitL_length_ge_two hsep_ne hs
    have hne_parts : pySplitL "At gate ".data (f.status.getD "N/A").data ≠ [] :=
      pySplitAuxL_ne_nil _ _ _
    rcases hlast : (pySplitL "At gate ".data (f.status.getD "N/A").data).getLast?
      with _ | p
    · exact absurd (List.getLast?_eq_none_iff.mp hlast) hne_parts
    have hpmem : p ∈ pySplitL "At gate ".data (f.status.getD "N/A").data := by
      obtain ⟨h0, hp⟩ := List.mem_getLast?_eq_getLast (Option.mem_def.mpr hlast)
      rw [hp]
      exact List.getLast_mem h0
    have hpfree : containsL "At gate ".data p = false :=
      pySplitAuxL_no_sep_in_parts _ hsep_ne (f.status.getD "N/A").data []
        (containsL_nil_of_ne hsep_ne) p hpmem
    have hjoin : joinSep "At gate ".data
        (pySplitL "At gate ".data (f.status.getD "N/A").data) =
        (f.status.getD "N/A").data := by
      have h := joinSep_pySplitAuxL "At gate ".data (f.status.getD "N/A").data []
      simpa using h
    obtain ⟨A, hA⟩ := joinSep_getLast_decomp _ _ p h2 hlast
    have hdecomp : (f.status.getD "N/A").data = A ++ "At gate ".data ++ p := by
      rw [← hjoin, hA]
    refine ⟨String.mk A, String.mk p, ?_, hpfree, ?_⟩
    · exact String.ext hdecomp
    · unfold actualTimeE
      have hlast' : (pySplit (f.status.getD "N/A") "At gate ").getLast? =
          some (String.mk p) := by
        unfold pySplit
        rw [List.getLast?_map, hlast]
        rfl
      simp [hc, hlast', pyIdxLast]

/-- Witness for `arrival_actual_time_spec`: a status without `"At gate"`
falls back to the `actualTime` field's default, and the bare status
`"At gate"` is returned whole. -/
theorem arrival_actual_time_spec_witness :
    actualTimeE true depGateEntry = .ok (depGateEntry.actualTime.getD "N/A") ∧
    actualTimeE true gateNoSpaceEntry = .ok (gateNoSpaceEntry.status.getD "N/A") :=
  ⟨(arrival_actual_time_spec depGateEntry).1 (by decide),
   (arrival_actual_time_spec gateNoSpaceEntry).2.1 (by decide) (by decide)⟩

/-- C9: the displayed sequence of records is a permutation of the collected
records, ordered by `date` descending, with no secondary key: records with
equal dates keep their relative insertion order (for every date value, the
subsequence with that date is unchanged). -/
theorem display_order_spec (l : List FlightInfo) :
    (displayOrder l).Perm l ∧
    (displayOrder l).Pairwise (fun a b => recDate b ≤ recDate a) ∧
    ∀ d : String, (displayOrder l).filter (fun r => recDate r == d) =
      l.filter (fun r => recDate r == d) :=
  ⟨sortDescBy_perm recDate l, sortDescBy_pairwise recDate l,
   fun d => sortDescBy_filter recDate d l⟩

end HKA

